import Mathlib

/-!
Shallow embedding of `src/Part-II/04_melt_pond/tutorial_helper_functions.py`
(AGU-2020 tutorial helper module) and proofs about the claims of its
specification.  The embedding covers:

* the NSIDC status-polling loop of `request_nsidc_data` (lines 189-199),
* the Harmony job-polling loop of `request_harmony_data` (lines 281-288),
* the Harmony result-link filter and download loop (lines 290-300),
* the NSIDC order/status XML extraction (lines 175-188) and download URL,
* the post-loop message / download / flatten tail of `request_nsidc_data`
  (lines 200-227) including the `os.walk` flattening pass (lines 219-226),
* the error-handling `try/except` of `search_granules` (lines 90-96),
* the in-place mutation of the caller's search-parameter dictionary in
  `search_granules` (line 77) and `request_harmony_data` (lines 246-256).

Network I/O is modelled by response oracles (one response per request index);
the unbounded `while` loops are modelled with an explicit fuel argument, the
run returning `none` exactly when the Python loop would still be running after
`fuel` further polls.  Python exceptions are modelled with `Except String`.
-/

/-! ### The NSIDC status-polling loop (lines 189-199)

`while status == 'pending' or status == 'processing':` — each iteration prints,
sleeps 10 seconds, re-polls the status URL and replaces `status` by the first
child text of the new response's `requestStatus` element.  The
`if ...: continue` at lines 198-199 is a no-op (the loop condition is
re-checked anyway) and needs no separate modelling. -/

/-- Loop guard of the NSIDC polling loop (line 189): the loop body runs
exactly when the current status is `pending` or `processing`. -/
def nsidcLoopCont (s : String) : Bool :=
  s == "pending" || s == "processing"

/-- Fuel-indexed run of the NSIDC polling loop.  `oracle n` is the status
string produced by the `n`-th re-poll issued from inside the loop; `polls`
counts the re-polls issued so far and `slept` the total seconds slept.
Returns `some (finalStatus, polls, slept)` when the loop exits, `none` when
`fuel` iterations did not reach a loop exit. -/
def nsidcPollAux (oracle : Nat → String) (fuel polls slept : Nat) (s : String) :
    Option (String × Nat × Nat) :=
  match fuel with
  | 0 => if nsidcLoopCont s then none else some (s, polls, slept)
  | fuel' + 1 =>
    if nsidcLoopCont s then
      nsidcPollAux oracle fuel' (polls + 1) (slept + 10) (oracle polls)
    else some (s, polls, slept)

/-! ### The Harmony job-polling loop (lines 281-288)

`while job_json['status'] == 'running' and job_json['progress'] < 100:` —
each iteration prints, sleeps 10 seconds and replaces the whole job snapshot
by the freshly fetched one.  The `if ...: continue` at lines 287-288 is again
a no-op. -/

/-- One result link of a Harmony job: `{href, rel}`, with `rel` possibly
absent from the JSON object. -/
structure HarmonyLink where
  href : String
  rel : Option String
deriving DecidableEq, Repr

/-- Local snapshot of a Harmony job response (`job_json`): the fields the
code reads are `status`, `progress` and `links`. -/
structure HarmonyJob where
  status : String
  progress : Int
  links : List HarmonyLink
deriving DecidableEq, Repr

/-- Loop guard of the Harmony polling loop (line 281). -/
def harmonyLoopCont (j : HarmonyJob) : Bool :=
  j.status == "running" && decide (j.progress < 100)

/-- Fuel-indexed run of the Harmony polling loop; `oracle n` is the job
snapshot produced by the `n`-th re-poll issued from inside the loop. -/
def harmonyPollAux (oracle : Nat → HarmonyJob) (fuel polls slept : Nat) (j : HarmonyJob) :
    Option (HarmonyJob × Nat × Nat) :=
  match fuel with
  | 0 => if harmonyLoopCont j then none else some (j, polls, slept)
  | fuel' + 1 =>
    if harmonyLoopCont j then
      harmonyPollAux oracle fuel' (polls + 1) (slept + 10) (oracle polls)
    else some (j, polls, slept)

/-! ### Harmony result links and the download loop (lines 290-300)

```
if job_json['progress'] == 100:
    links = [link for link in job_json['links'] if link.get('rel', 'data') == 'data']
    for i in range(len(links)):
        filepath = link_dict['href'].split('/')[-1]
        file_ = open(filepath, 'wb'); file_.write(urlopen(href).read())
```
`open(filepath, 'wb')` receives a bare file name (no directory component), which
the operating system resolves against the process working directory; the code
designates no separate output folder on this backend, so the working directory
is where the results land. -/

/-- `link.get('rel', 'data')`: the `rel` field, defaulting to `"data"` when
absent. -/
def relGetD (l : HarmonyLink) : String :=
  l.rel.getD "data"

/-- Line 292: the list-comprehension filter selecting the links to download. -/
def dataLinks (links : List HarmonyLink) : List HarmonyLink :=
  links.filter (fun l => relGetD l == "data")

/-- Python `str.split(sep)` for a single-character separator, on the
character list of the string: splitting the empty string gives `[[]]`, and
every occurrence of the separator starts a new (possibly empty) chunk. -/
def splitCharList (c : Char) : List Char → List (List Char)
  | [] => [[]]
  | a :: rest =>
    if a = c then [] :: splitCharList c rest
    else
      match splitCharList c rest with
      | [] => [[a]]
      | h :: t => (a :: h) :: t

/-- Python `s.split(c)` for a one-character separator `c`. -/
def pySplit (c : Char) (s : String) : List String :=
  (splitCharList c s.data).map String.mk

/-- `href.split('/')[-1]`: the final path segment of a URL. -/
def lastSegment (href : String) : String :=
  (pySplit '/' href).getLastD ""

/-- The hrefs actually fetched by `request_harmony_data` from the final job
snapshot (the download loop runs only under `progress == 100`, line 290). -/
def harmonyDownloadedHrefs (j : HarmonyJob) : List String :=
  if j.progress = 100 then (dataLinks j.links).map HarmonyLink.href else []

/-- The `(absolute path, content)` file writes performed by the download loop,
given the process working directory `cwd` and a `fetch` oracle giving each
URL's response body.  Each write opens the bare filename
`href.split('/')[-1]`, resolved by the OS against `cwd`. -/
def harmonyWrites (cwd : String) (fetch : String → String) (j : HarmonyJob) :
    List (String × String) :=
  if j.progress = 100 then
    (dataLinks j.links).map (fun l => (cwd ++ "/" ++ lastSegment l.href, fetch l.href))
  else []

/-! ### NSIDC XML extraction (lines 175-188) and download URL (line 208)

`ElementTree.findall("./TAG/")` — a path with a trailing slash — selects the
*children* of every child of the root whose tag is `TAG` (observed ElementTree
behaviour; e.g. `findall("./order/")` on
`<resp><order><id>ORD1</id></order></resp>` returns the `id` element).  The
code then takes `.text` of each match (an optional string) and indexes the
resulting list with `[0]`, which raises `IndexError` on an empty list —
modelled by the outer `Option` of `List.head?`. -/

/-- A minimal XML element: tag, text (text content before the first child,
`None` when absent) and child elements. -/
inductive Xml where
  | elem (tag : String) (text : Option String) (children : List Xml)

/-- Tag of an element. -/
def Xml.tag : Xml → String
  | Xml.elem t _ _ => t

/-- `.text` of an element. -/
def Xml.text : Xml → Option String
  | Xml.elem _ s _ => s

/-- Child elements. -/
def Xml.children : Xml → List Xml
  | Xml.elem _ _ c => c

/-- `root.findall("./TAG/")`: all children of the root's children whose tag is
`TAG`, in document order. -/
def findallChildrenOf (root : Xml) (t : String) : List Xml :=
  (root.children.filter (fun c => Xml.tag c == t)).flatMap Xml.children

/-- Lines 177-180: `orderlist` holds the `.text` of every match of
`./order/`; `orderID = orderlist[0]`. `none` models the `IndexError` on an
empty list; the inner `Option` is the element's possibly-absent text. -/
def nsidcOrderID (root : Xml) : Option (Option String) :=
  ((findallChildrenOf root "order").map Xml.text).head?

/-- Lines 185-188 (and 194-197): `statuslist` holds the `.text` of every match
of `./requestStatus/`; `status = statuslist[0]`. -/
def nsidcStatusOf (root : Xml) : Option (Option String) :=
  ((findallChildrenOf root "requestStatus").map Xml.text).head?

/-- Line 208: `downloadURL = 'https://n5eil02u.ecs.nsidc.org/esir/' + orderID
+ '.zip'`. -/
def nsidcDownloadURL (orderID : String) : String :=
  "https://n5eil02u.ecs.nsidc.org/esir/" ++ orderID ++ ".zip"

/-- Submission response of the claim scenario:
`<order><id>ORD1</id></order>` inside the response root. -/
def ordXmlORD1 : Xml :=
  Xml.elem "agentResponse" none [Xml.elem "order" none [Xml.elem "id" (some "ORD1") []]]

/-- Status response with a *flat* `<requestStatus>complete</requestStatus>`
element (the form named by the claim scenario). -/
def flatStatusXml : Xml :=
  Xml.elem "agentResponse" none [Xml.elem "requestStatus" (some "complete") []]

/-- Status response in the shape real NSIDC replies have:
`<requestStatus><status>complete</status></requestStatus>`. -/
def nestedStatusXml : Xml :=
  Xml.elem "agentResponse" none
    [Xml.elem "requestStatus" none [Xml.elem "status" (some "complete") []]]

/-! ### The tail of `request_nsidc_data` (lines 200-227)

After the polling loop:

* lines 200-206 — when the final status is `complete_with_errors` or
  `failed`, the code builds `messagelist` from `loop_root`, the parse tree of
  the *last response fetched inside the loop body*.  When the very first
  status check is already terminal the loop body never ran and the name
  `loop_root` is unbound: Python raises `NameError` at line 202;
* lines 207-216 — when the final status is `complete` or
  `complete_with_errors` the zip artifact at `nsidcDownloadURL` is fetched and
  extracted; otherwise `'Request failed.'` is printed;
* lines 219-226 — the flattening `os.walk` pass runs unconditionally
  afterwards (modelled separately below; here only the fact that it is
  reached is recorded). -/

/-- Observable outcome of a completed `request_nsidc_data` run. -/
structure NsidcOutcome where
  finalStatus : String
  loopPolls : Nat
  secondsSlept : Nat
  /-- `some msgs` when the lines 200-206 block printed the diagnostic
  messages `msgs`; `none` when the block was skipped. -/
  printedMessages : Option (List (Option String))
  /-- `some url` when the zip at `url` was downloaded and extracted. -/
  downloadURL : Option String
  /-- Whether the `else` of line 216 printed `'Request failed.'`. -/
  printedRequestFailed : Bool
  /-- Whether control reached the flattening walk of lines 219-226. -/
  flattenRan : Bool
deriving DecidableEq, Repr

/-- Lines 200-227 as a function of the loop's result: final status `s`,
number of loop re-polls `polls`, seconds slept, and the `processInfo` texts
of the last loop response (meaningful only when `polls > 0`). -/
def nsidcTail (orderID : String) (polls slept : Nat) (lastMsgs : List (Option String))
    (s : String) : Except String NsidcOutcome :=
  if s == "complete_with_errors" || s == "failed" then
    if polls == 0 then
      Except.error "NameError: name loop_root is not defined"
    else
      Except.ok
        { finalStatus := s, loopPolls := polls, secondsSlept := slept
          printedMessages := some lastMsgs
          downloadURL :=
            if s == "complete" || s == "complete_with_errors" then
              some (nsidcDownloadURL orderID)
            else none
          printedRequestFailed := !(s == "complete" || s == "complete_with_errors")
          flattenRan := true }
  else
    Except.ok
      { finalStatus := s, loopPolls := polls, secondsSlept := slept
        printedMessages := none
        downloadURL :=
          if s == "complete" || s == "complete_with_errors" then
            some (nsidcDownloadURL orderID)
          else none
        printedRequestFailed := !(s == "complete" || s == "complete_with_errors")
        flattenRan := true }

/-- Whole-function run of the status handling of `request_nsidc_data`:
`statusOracle n` is the `requestStatus` text of the `n`-th status request
(`n = 0` is the initial check of line 183), `msgOracle n` the `processInfo`
texts of the `n`-th response.  `none` when `fuel` re-polls were not enough
for the loop to exit. -/
def nsidcRun (orderID : String) (statusOracle : Nat → String)
    (msgOracle : Nat → List (Option String)) (fuel : Nat) :
    Option (Except String NsidcOutcome) :=
  match nsidcPollAux (fun n => statusOracle (n + 1)) fuel 0 0 (statusOracle 0) with
  | none => none
  | some (s, polls, slept) => some (nsidcTail orderID polls slept (msgOracle polls) s)

/-! ### The flattening walk (lines 219-226)

```
for root, dirs, files in os.walk(path, topdown=False):
    for file in files:
        try: shutil.move(os.path.join(root, file), path)
        except OSError: pass
    for name in dirs:
        os.rmdir(os.path.join(root, name))
```

Modelling notes, all matching observed CPython behaviour:

* `os.walk(..., topdown=False)` scans every directory before any of the
  moves or removals below it take effect (`path` itself is scanned first of
  all, and a directory's files are only moved, and its children only removed,
  in its own yield, which comes after every descendant's yield).  Hence each
  yielded `(root, dirs, files)` triple is the listing of the *initial*
  extracted tree, and the yields come in a postorder: every directory is
  yielded before every ancestor of it.  Sibling order is
  filesystem-dependent, so the model takes an arbitrary postorder
  enumeration `order` of the directories (with the top directory, `[]`,
  necessarily last since every directory is below it).
* `shutil.move(src, path)` with `path` a directory first computes
  `path/basename(src)` and raises `shutil.Error` — a subclass of `OSError`,
  hence swallowed by the `except OSError: pass` — when that destination
  already exists (whether it is a file or a directory); otherwise it renames
  `src` to `path/basename(src)`.  Note a file already directly in `path` is
  its own destination, so its move always fails and is swallowed.
* `os.rmdir` raises `OSError` on a non-empty directory, and this exception is
  *not* caught: it aborts the whole function (modelled by `none`).

Paths are relative to the output directory: a file is a pair of the list of
directory names above it and its base name; `[]` is the output directory
itself. -/

/-- A file in the extracted tree: directory path (relative to the output
directory) and base name. -/
structure RelFile where
  dir : List String
  name : String
deriving DecidableEq, Repr

/-- Current state of the output tree during the walk. -/
structure FlattenState where
  files : List RelFile
  dirs : List (List String)
deriving DecidableEq, Repr

/-- `shutil.move(join(root, f), path)` wrapped in `try/except OSError: pass`:
if `path/f.name` already exists (as a file or as a top-level directory) the
failure is swallowed and nothing changes; otherwise the file is relocated to
the top. -/
def moveStep (fs : FlattenState) (f : RelFile) : FlattenState :=
  if fs.files.contains ⟨[], f.name⟩ || fs.dirs.contains [f.name] then fs
  else { fs with files := fs.files.map (fun g => if g = f then ⟨[], f.name⟩ else g) }

/-- Is directory `d` non-empty: some file lies in it (or deeper), or some
other directory extends it. -/
def dirNonEmpty (fs : FlattenState) (d : List String) : Bool :=
  fs.files.any (fun f => d.isPrefixOf f.dir)
    || fs.dirs.any (fun d2 => d.isPrefixOf d2 && !(d2 == d))

/-- `os.rmdir(join(root, name))`, uncaught: `none` models the `OSError` that
aborts the function when the directory is not empty. -/
def rmdirStep (fs : FlattenState) (d : List String) : Option FlattenState :=
  if dirNonEmpty fs d then none else some { fs with dirs := fs.dirs.erase d }

/-- One event of the walk: a file move or a directory removal. -/
inductive WalkEvent where
  | mv (f : RelFile)
  | rd (d : List String)
deriving DecidableEq, Repr

/-- Run a sequence of walk events; `none` as soon as an `rmdir` raises. -/
def runEvents : FlattenState → List WalkEvent → Option FlattenState
  | fs, [] => some fs
  | fs, WalkEvent.mv f :: es => runEvents (moveStep fs f) es
  | fs, WalkEvent.rd d :: es =>
    match rmdirStep fs d with
    | none => none
    | some fs2 => runEvents fs2 es

/-- Immediate subdirectories of `d` among `dirs`. -/
def childrenIn (dirs : List (List String)) (d : List String) : List (List String) :=
  dirs.filter (fun c => !c.isEmpty && c.dropLast == d)

/-- The events of the yield for directory `d`: move each of `d`'s files
(listing taken from the initial tree — see the modelling notes), then remove
each of `d`'s immediate subdirectories. -/
def eventsFor (files0 : List RelFile) (dirs0 : List (List String)) (d : List String) :
    List WalkEvent :=
  (files0.filter (fun f => f.dir == d)).map WalkEvent.mv
    ++ (childrenIn dirs0 d).map WalkEvent.rd

/-- All events of `os.walk(path, topdown=False)` over the initial tree, for a
given postorder enumeration `order` of the directories. -/
def walkEvents (files0 : List RelFile) (dirs0 : List (List String))
    (order : List (List String)) : List WalkEvent :=
  order.flatMap (eventsFor files0 dirs0)

/-- The whole flattening pass: `none` models the uncaught `OSError` from
`os.rmdir`. -/
def flattenRun (files0 : List RelFile) (dirs0 : List (List String))
    (order : List (List String)) : Option FlattenState :=
  runEvents ⟨files0, dirs0⟩ (walkEvents files0 dirs0 order)

/-- Helper: location of each initial file once the directories in `done`
have had their yields processed (a file is at the top iff its directory has
been processed; files directly at the top never change location). -/
def afterFiles (files0 : List RelFile) (done : List (List String)) : List RelFile :=
  files0.map (fun f => if f.dir ∈ done then ⟨[], f.name⟩ else f)

/-- Helper: the directories still present once those in `done` have been
processed (a directory disappears when its parent is processed). -/
def afterDirs (dirs0 done : List (List String)) : List (List String) :=
  dirs0.filter (fun c => c.dropLast ∉ done)

/-- Helper: file locations midway through directory `d`'s yield: the files
of the directories in `done` have been moved, as have `d`'s own files except
those still in `todo`. -/
def afterFilesP (files0 : List RelFile) (done : List (List String)) (d : List String)
    (todo : List RelFile) : List RelFile :=
  files0.map (fun f => if f.dir ∈ done ∨ (f.dir = d ∧ f ∉ todo) then ⟨[], f.name⟩ else f)

/-! ### `search_granules` error handling (lines 90-96)

```
try:
    response = requests.post(...)
    response.raise_for_status()
except HTTPError as http_err:
    print(f"HTTP Error: {http_error}")
except Exception as err:
    print(f"Error: {err}")
```

The module never binds the name `HTTPError` (only `import requests` appears;
there is no `from requests.exceptions import HTTPError`).  When the `try`
body raises — the POST itself failing, or `raise_for_status` on a non-2xx
response — Python evaluates the first `except` clause's expression
`HTTPError`, and that lookup raises `NameError`, which propagates out of the
function; neither `print` is reachable (the first one also names the
undefined `http_error` instead of `http_err`).  `search_services`
(lines 131-137) has the identical block. -/

/-- Outcome of `requests.post(...)` followed by `raise_for_status()`. -/
inductive HttpOutcome where
  | ok (body : String) (hits : Nat)
  | statusError (code : Nat)
  | netError (msg : String)
deriving DecidableEq, Repr

/-- The `try/except` of lines 90-96: on success the response flows on; on any
failure the unbound name `HTTPError` in the first `except` clause raises
`NameError` and the function halts. -/
def cmrRequestStep (outcome : HttpOutcome) : Except String HttpOutcome :=
  match outcome with
  | HttpOutcome.ok body hits => Except.ok (HttpOutcome.ok body hits)
  | _ => Except.error "NameError: name HTTPError is not defined"

/-! ### In-place mutation of the search-parameter dictionary
(line 77 of `search_granules`, lines 246-256 of `request_harmony_data`)

A Python `dict` of string keys and values is modelled as an association list
with at most one slot per key; `d[k] = v` overwrites the existing slot in
place or appends a new one.  The Python functions mutate the very dictionary
object the caller passed; the model expresses this by returning the updated
mapping and proving exactly which keys differ from the input. -/

/-- The caller's search-parameter dictionary. -/
abbrev ParamDict := List (String × String)

/-- `d[k] = v`: overwrite the slot of `k` in place when present (a Python
dict holds each key once), otherwise append a new last slot. -/
def dictSet : ParamDict → String → String → ParamDict
  | [], k, v => [(k, v)]
  | kv :: rest, k, v => if kv.1 == k then (k, v) :: rest else kv :: dictSet rest k v

/-- `d[k]` as an option (`none` models `KeyError`). -/
def dictGet (d : ParamDict) (k : String) : Option String :=
  (d.find? (fun kv => kv.1 == k)).map Prod.snd

/-- Line 77: `search_parameters['token'] = token` — the only mutation
`search_granules` performs on the caller's dictionary. -/
def searchGranulesParams (p : ParamDict) (token : String) : ParamDict :=
  dictSet p "token" token

/-- Lines 246-256 of `request_harmony_data`: inject `collection_id` (from the
CMR collection lookup), then `lat`, `lon` (from `bounding_box` split on
commas) and `time` (from `temporal` split on a comma) into the caller's
dictionary.  `none` models the `KeyError`/`IndexError` when `bounding_box`
or `temporal` is absent or has too few comma-separated parts. -/
def harmonyInject (p : ParamDict) (collectionId : String) : Option ParamDict :=
  match dictGet p "bounding_box", dictGet p "temporal" with
  | some bb, some temporal =>
    let bbs := pySplit ',' bb
    let ts := pySplit ',' temporal
    if 4 ≤ bbs.length ∧ 2 ≤ ts.length then
      let lat := "(" ++ bbs.getD 1 "" ++ ":" ++ bbs.getD 3 "" ++ ")"
      let lon := "(" ++ bbs.getD 0 "" ++ ":" ++ bbs.getD 2 "" ++ ")"
      let tstr := "(\"" ++ ts.getD 0 "" ++ "\":\"" ++ ts.getD 1 "" ++ "\")"
      some (dictSet (dictSet (dictSet (dictSet p "collection_id" collectionId)
        "lat" lat) "lon" lon) "time" tstr)
    else none
  | _, _ => none

/-! Basic facts about the two loops. -/

theorem nsidcPollAux_exit (oracle : Nat → String) (fuel polls slept : Nat) (s : String)
    (h : nsidcLoopCont s = false) :
    nsidcPollAux oracle fuel polls slept s = some (s, polls, slept) := by
  cases fuel <;> simp [nsidcPollAux, h]

theorem harmonyPollAux_exit (oracle : Nat → HarmonyJob) (fuel polls slept : Nat)
    (j : HarmonyJob) (h : harmonyLoopCont j = false) :
    harmonyPollAux oracle fuel polls slept j = some (j, polls, slept) := by
  cases fuel <;> simp [harmonyPollAux, h]

theorem nsidcPollAux_step (oracle : Nat → String) (fuel polls slept : Nat) (s : String)
    (h : nsidcLoopCont s = true) :
    nsidcPollAux oracle (fuel + 1) polls slept s
      = nsidcPollAux oracle fuel (polls + 1) (slept + 10) (oracle polls) := by
  simp [nsidcPollAux, h]

theorem harmonyPollAux_step (oracle : Nat → HarmonyJob) (fuel polls slept : Nat)
    (j : HarmonyJob) (h : harmonyLoopCont j = true) :
    harmonyPollAux oracle (fuel + 1) polls slept j
      = harmonyPollAux oracle fuel (polls + 1) (slept + 10) (oracle polls) := by
  simp [harmonyPollAux, h]

/-- If the NSIDC loop is started with poll counter `i` and sleep counter
`10 * i`, then on any exit the total sleep equals ten seconds per poll. -/
theorem nsidcPollAux_slept (oracle : Nat → String) :
    ∀ (fuel i : Nat) (s s' : String) (p t : Nat),
      nsidcPollAux oracle fuel i (10 * i) s = some (s', p, t) → t = 10 * p := by
  intro fuel
  induction fuel with
  | zero =>
    intro i s s' p t h
    by_cases hc : nsidcLoopCont s = true <;> simp [nsidcPollAux, hc] at h
    omega
  | succ fuel ih =>
    intro i s s' p t h
    by_cases hc : nsidcLoopCont s = true
    · rw [nsidcPollAux_step oracle fuel i (10 * i) s hc] at h
      have : 10 * i + 10 = 10 * (i + 1) := by ring
      rw [this] at h
      exact ih (i + 1) (oracle i) s' p t h
    · rw [nsidcPollAux_exit oracle _ _ _ _ (by simpa using hc)] at h
      cases h
      rfl

/-- Same sleep accounting for the Harmony loop. -/
theorem harmonyPollAux_slept (oracle : Nat → HarmonyJob) :
    ∀ (fuel i : Nat) (j j' : HarmonyJob) (p t : Nat),
      harmonyPollAux oracle fuel i (10 * i) j = some (j', p, t) → t = 10 * p := by
  intro fuel
  induction fuel with
  | zero =>
    intro i j j' p t h
    by_cases hc : harmonyLoopCont j = true <;> simp [harmonyPollAux, hc] at h
    omega
  | succ fuel ih =>
    intro i j j' p t h
    by_cases hc : harmonyLoopCont j = true
    · rw [harmonyPollAux_step oracle fuel i (10 * i) j hc] at h
      have : 10 * i + 10 = 10 * (i + 1) := by ring
      rw [this] at h
      exact ih (i + 1) (oracle i) j' p t h
    · rw [harmonyPollAux_exit oracle _ _ _ _ (by simpa using hc)] at h
      cases h
      rfl

/-- Under an oracle that only ever answers non-terminal statuses, the NSIDC
loop returns `none` for every amount of fuel. -/
theorem nsidcPollAux_diverge (oracle : Nat → String)
    (ho : ∀ n, nsidcLoopCont (oracle n) = true) :
    ∀ (fuel polls slept : Nat) (s : String),
      nsidcLoopCont s = true → nsidcPollAux oracle fuel polls slept s = none := by
  intro fuel
  induction fuel with
  | zero => intro polls slept s hs; simp [nsidcPollAux, hs]
  | succ fuel ih =>
    intro polls slept s hs
    rw [nsidcPollAux_step oracle fuel polls slept s hs]
    exact ih (polls + 1) (slept + 10) (oracle polls) (ho polls)

/-- Under an oracle that only ever answers running jobs with progress below
100, the Harmony loop returns `none` for every amount of fuel. -/
theorem harmonyPollAux_diverge (oracle : Nat → HarmonyJob)
    (ho : ∀ n, harmonyLoopCont (oracle n) = true) :
    ∀ (fuel polls slept : Nat) (j : HarmonyJob),
      harmonyLoopCont j = true → harmonyPollAux oracle fuel polls slept j = none := by
  intro fuel
  induction fuel with
  | zero => intro polls slept j hj; simp [harmonyPollAux, hj]
  | succ fuel ih =>
    intro polls slept j hj
    rw [harmonyPollAux_step oracle fuel polls slept j hj]
    exact ih (polls + 1) (slept + 10) (oracle polls) (ho polls)

/-! ### Claims C1 and C2: loop exit and unbounded fixed-interval polling -/

/-- C1: for every polled status in `complete`, `complete_with_errors`,
`failed` on the NSIDC backend, and whenever the status is no longer
`running` or the progress has reached 100 on the Harmony backend, the
polling loop exits with the final snapshot and issues no further poll
(the re-poll counter and the slept time are unchanged). -/
theorem claim_C1_terminal_exit :
    (∀ (oracle : Nat → String) (fuel polls slept : Nat) (s : String),
        s = "complete" ∨ s = "complete_with_errors" ∨ s = "failed" →
        nsidcPollAux oracle fuel polls slept s = some (s, polls, slept)) ∧
    (∀ (oracle : Nat → HarmonyJob) (fuel polls slept : Nat) (j : HarmonyJob),
        j.status ≠ "running" ∨ (100 : Int) ≤ j.progress →
        harmonyPollAux oracle fuel polls slept j = some (j, polls, slept)) := by
  constructor
  · intro oracle fuel polls slept s hs
    apply nsidcPollAux_exit
    rcases hs with h | h | h <;> subst h <;> decide
  · intro oracle fuel polls slept j hj
    apply harmonyPollAux_exit
    unfold harmonyLoopCont
    rcases hj with h | h
    · simp [h]
    · simp [not_lt.mpr h]

/-- Witness for C1 at concrete inputs. -/
theorem claim_C1_terminal_exit_witness :
    nsidcPollAux (fun _ => "pending") 5 0 0 "complete" = some ("complete", 0, 0) ∧
    harmonyPollAux (fun _ => HarmonyJob.mk "running" 0 []) 5 0 0
      (HarmonyJob.mk "successful" 100 [])
      = some (HarmonyJob.mk "successful" 100 [], 0, 0) :=
  ⟨claim_C1_terminal_exit.1 _ 5 0 0 "complete" (Or.inl rfl),
   claim_C1_terminal_exit.2 _ 5 0 0 (HarmonyJob.mk "successful" 100 [])
     (Or.inl (by decide))⟩

/-- C2: a non-terminal status makes the loop sleep exactly 10 seconds and
issue exactly one further poll (first and fourth conjuncts); every finished
run has slept exactly ten seconds per poll issued (second and fifth); and
under an oracle that never answers a terminal status the loop never
terminates, whatever the fuel — there is no retry bound or timeout (third
and sixth), on both backends. -/
theorem claim_C2_nonterminal_polling :
    (∀ (oracle : Nat → String) (fuel polls slept : Nat) (s : String),
        nsidcLoopCont s = true →
        nsidcPollAux oracle (fuel + 1) polls slept s
          = nsidcPollAux oracle fuel (polls + 1) (slept + 10) (oracle polls)) ∧
    (∀ (oracle : Nat → String) (fuel : Nat) (s s' : String) (p t : Nat),
        nsidcPollAux oracle fuel 0 0 s = some (s', p, t) → t = 10 * p) ∧
    (∀ oracle : Nat → String, (∀ n, nsidcLoopCont (oracle n) = true) →
        ∀ (fuel polls slept : Nat) (s : String), nsidcLoopCont s = true →
          nsidcPollAux oracle fuel polls slept s = none) ∧
    (∀ (oracle : Nat → HarmonyJob) (fuel polls slept : Nat) (j : HarmonyJob),
        harmonyLoopCont j = true →
        harmonyPollAux oracle (fuel + 1) polls slept j
          = harmonyPollAux oracle fuel (polls + 1) (slept + 10) (oracle polls)) ∧
    (∀ (oracle : Nat → HarmonyJob) (fuel : Nat) (j j' : HarmonyJob) (p t : Nat),
        harmonyPollAux oracle fuel 0 0 j = some (j', p, t) → t = 10 * p) ∧
    (∀ oracle : Nat → HarmonyJob, (∀ n, harmonyLoopCont (oracle n) = true) →
        ∀ (fuel polls slept : Nat) (j : HarmonyJob), harmonyLoopCont j = true →
          harmonyPollAux oracle fuel polls slept j = none) := by
  refine ⟨nsidcPollAux_step, ?_, nsidcPollAux_diverge, harmonyPollAux_step, ?_,
    harmonyPollAux_diverge⟩
  · intro oracle fuel s s' p t h
    exact nsidcPollAux_slept oracle fuel 0 s s' p t h
  · intro oracle fuel j j' p t h
    exact harmonyPollAux_slept oracle fuel 0 j j' p t h

/-- Witness for C2 at concrete inputs. -/
theorem claim_C2_nonterminal_polling_witness :
    nsidcPollAux (fun _ => "complete") 1 0 0 "pending"
      = nsidcPollAux (fun _ => "complete") 0 1 10 "complete" ∧
    nsidcPollAux (fun _ => "processing") 7 0 0 "pending" = none ∧
    harmonyPollAux (fun _ => HarmonyJob.mk "running" 50 []) 7 0 0
      (HarmonyJob.mk "running" 10 []) = none :=
  ⟨claim_C2_nonterminal_polling.1 (fun _ => "complete") 0 0 0 "pending" (by decide),
   claim_C2_nonterminal_polling.2.2.1 (fun _ => "processing")
     (fun _ => (by decide : nsidcLoopCont "processing" = true))
     7 0 0 "pending" (by decide),
   claim_C2_nonterminal_polling.2.2.2.2.2 (fun _ => HarmonyJob.mk "running" 50 [])
     (fun _ => (by decide : harmonyLoopCont (HarmonyJob.mk "running" 50 []) = true))
     7 0 0 (HarmonyJob.mk "running" 10 []) (by decide)⟩

/-! ### Claim C3: the `rel` filter on Harmony result links -/

/-- C3: the download filter keeps exactly the links whose `rel` field equals
`"data"` or is absent; on the example list with hrefs `a` (rel `data`),
`b` (rel `meta`), `c` (no rel), exactly `a` and `c` are fetched. -/
theorem claim_C3_rel_filter :
    (∀ (links : List HarmonyLink) (l : HarmonyLink),
        l ∈ dataLinks links ↔ l ∈ links ∧ (l.rel = some "data" ∨ l.rel = none)) ∧
    dataLinks [⟨"a", some "data"⟩, ⟨"b", some "meta"⟩, ⟨"c", none⟩]
      = [⟨"a", some "data"⟩, ⟨"c", none⟩] ∧
    harmonyDownloadedHrefs
      (HarmonyJob.mk "successful" 100
        [⟨"a", some "data"⟩, ⟨"b", some "meta"⟩, ⟨"c", none⟩])
      = ["a", "c"] := by
  refine ⟨?_, by decide, by decide⟩
  intro links l
  rw [dataLinks, List.mem_filter]
  refine and_congr_right fun _ => ?_
  cases hr : l.rel with
  | none => simp [relGetD, hr]
  | some r => simp [relGetD, hr, beq_iff_eq]

/-! ### Claim C4: Harmony result files land beside the working directory
under the URL's final path segment -/

/-- C4: each downloaded Harmony result link is written into the directory
the function designates for output — the process working directory `cwd`;
the code opens a bare relative filename, so no other directory is involved —
under the filename taken from the final path segment of the link's URL.
The last two conjuncts evaluate the final-segment extraction on a concrete
URL and show it contains no path separator, so the file sits directly in
`cwd`. -/
theorem claim_C4_write_paths :
    (∀ (cwd : String) (fetch : String → String) (j : HarmonyJob),
        j.progress = 100 →
        harmonyWrites cwd fetch j
          = (dataLinks j.links).map
              (fun l => (cwd ++ "/" ++ lastSegment l.href, fetch l.href))) ∧
    lastSegment "https://harmony.earthdata.nasa.gov/service-results/out/pond1.nc"
      = "pond1.nc" ∧
    ("pond1.nc".data.contains '/') = false := by
  refine ⟨?_, by decide, by decide⟩
  intro cwd fetch j h
  simp [harmonyWrites, h]

/-- Witness for C4 at a concrete job. -/
theorem claim_C4_write_paths_witness :
    harmonyWrites "/work" (fun _ => "bytes")
      (HarmonyJob.mk "successful" 100 [⟨"https://h/x/y/out.nc", none⟩])
      = (dataLinks [({ href := "https://h/x/y/out.nc", rel := none } : HarmonyLink)]).map
          (fun l => ("/work" ++ "/" ++ lastSegment l.href, (fun _ => "bytes") l.href)) :=
  claim_C4_write_paths.1 "/work" (fun _ => "bytes")
    (HarmonyJob.mk "successful" 100 [⟨"https://h/x/y/out.nc", none⟩]) rfl

/-! ### Claim C6: diagnostics on `complete_with_errors` / `failed` -/

/-- C6 (the code evaluated at the failing input, and at a neighbouring good
input): when the very first status check already reports `failed`, the
message block of lines 200-206 reads the unbound name `loop_root` and
`request_nsidc_data` raises `NameError` instead of printing the diagnostics
(first conjunct); when the loop did run, the diagnostics of the last loop
response are printed and nothing is raised (second conjunct). -/
theorem claim_C6_first_check_nameerror :
    nsidcRun "ORD1" (fun _ => "failed") (fun _ => []) 5
      = some (Except.error "NameError: name loop_root is not defined") ∧
    nsidcTail "ORD1" 2 20 [some "No data found"] "complete_with_errors"
      = Except.ok
          { finalStatus := "complete_with_errors", loopPolls := 2, secondsSlept := 20
            printedMessages := some [some "No data found"]
            downloadURL := some (nsidcDownloadURL "ORD1")
            printedRequestFailed := false, flattenRan := true } :=
  ⟨rfl, rfl⟩

/-! ### Claim C7: error handling of the CMR search request -/

/-- C7 (the code evaluated at the failing inputs): whether the POST of
`search_granules` raises a network error or `raise_for_status` signals a
non-2xx response, the `except HTTPError` clause evaluates the unbound name
`HTTPError` and the function halts with `NameError` — no message about the
failure is printed and execution does not continue.  On a 2xx response the
request step just passes the response on. -/
theorem claim_C7_search_nameerror :
    cmrRequestStep (HttpOutcome.statusError 503)
      = Except.error "NameError: name HTTPError is not defined" ∧
    cmrRequestStep (HttpOutcome.netError "connection reset")
      = Except.error "NameError: name HTTPError is not defined" ∧
    cmrRequestStep (HttpOutcome.ok "body" 3) = Except.ok (HttpOutcome.ok "body" 3) :=
  ⟨rfl, rfl, rfl⟩

/-! ### Claim C8: the NSIDC submission / status / download scenario -/

/-- C8 counterexample: a status response containing the flat element
`<requestStatus>complete</requestStatus>` does *not* yield the terminal
state `complete` — `findall("./requestStatus/")` selects the children of
`requestStatus`, of which there are none, and `statuslist[0]` raises
`IndexError` (the `none`). -/
theorem claim_C8_counterexample :
    nsidcStatusOf flatStatusXml ≠ some (some "complete") ∧
    nsidcStatusOf flatStatusXml = none :=
  ⟨by decide, rfl⟩

/-- C8 amended: submission XML `<order><id>ORD1</id></order>` yields
`orderID = "ORD1"`; a status response whose `requestStatus` element carries
the status in a child element (`<requestStatus><status>complete</status>
</requestStatus>`, the shape of real NSIDC replies) yields the terminal
state `complete`; and the zip is downloaded from the esir base URL with the
order id and `.zip` appended. -/
theorem claim_C8_amended :
    nsidcOrderID ordXmlORD1 = some (some "ORD1") ∧
    nsidcStatusOf nestedStatusXml = some (some "complete") ∧
    nsidcLoopCont "complete" = false ∧
    nsidcDownloadURL "ORD1" = "https://n5eil02u.ecs.nsidc.org/esir/ORD1.zip" :=
  ⟨rfl, rfl, by decide, rfl⟩

/-! ### Claim C9: in-place mutation of the caller's parameter dictionary -/

theorem dictGet_dictSet_self (d : ParamDict) (k v : String) :
    dictGet (dictSet d k v) k = some v := by
  induction d with
  | nil =>
    show dictGet [(k, v)] k = some v
    rw [dictGet, List.find?_cons_of_pos _ (by simp)]
    rfl
  | cons kv rest ih =>
    by_cases h : kv.1 = k
    · simp only [dictSet, if_pos (show (kv.1 == k) = true by simp [h])]
      rw [dictGet, List.find?_cons_of_pos _ (by simp)]
      rfl
    · simp only [dictSet, if_neg (show ¬ (kv.1 == k) = true by simp [h])]
      rw [dictGet, List.find?_cons_of_neg _ (by simp [h])]
      exact ih

theorem dictGet_dictSet_other (d : ParamDict) (k v k' : String) (h : k' ≠ k) :
    dictGet (dictSet d k v) k' = dictGet d k' := by
  induction d with
  | nil =>
    show dictGet [(k, v)] k' = dictGet [] k'
    rw [dictGet, List.find?_cons_of_neg _ (by simp [Ne.symm h])]
    rfl
  | cons kv rest ih =>
    by_cases hk : kv.1 = k
    · simp only [dictSet, if_pos (show (kv.1 == k) = true by simp [hk])]
      rw [dictGet, List.find?_cons_of_neg _ (by simp [Ne.symm h]),
        dictGet, List.find?_cons_of_neg _ (by simp [hk, Ne.symm h])]
    · simp only [dictSet, if_neg (show ¬ (kv.1 == k) = true by simp [hk])]
      by_cases hk' : kv.1 = k'
      · rw [dictGet, List.find?_cons_of_pos _ (by simp [hk']),
          dictGet, List.find?_cons_of_pos _ (by simp [hk'])]
      · rw [dictGet, List.find?_cons_of_neg _ (by simp [hk']),
          dictGet, List.find?_cons_of_neg _ (by simp [hk'])]
        exact ih

/-- C9: `search_granules` mutates the caller's dictionary by setting exactly
the key `token` and leaves every other key's value unchanged; on top of
that, `request_harmony_data` injects exactly the derived keys
`collection_id`, `lat`, `lon` and `time` (the subset ranges computed from
`bounding_box` and `temporal`) into the same dictionary, leaving all other
keys unchanged. -/
theorem claim_C9_param_mutation :
    (∀ (p : ParamDict) (token k : String),
        dictGet (searchGranulesParams p token) k
          = if k = "token" then some token else dictGet p k) ∧
    (∀ (p q : ParamDict) (cid bb temporal : String),
        dictGet p "bounding_box" = some bb →
        dictGet p "temporal" = some temporal →
        harmonyInject p cid = some q →
        dictGet q "collection_id" = some cid ∧
        dictGet q "lat" = some ("(" ++ (pySplit ',' bb).getD 1 "" ++ ":"
          ++ (pySplit ',' bb).getD 3 "" ++ ")") ∧
        dictGet q "lon" = some ("(" ++ (pySplit ',' bb).getD 0 "" ++ ":"
          ++ (pySplit ',' bb).getD 2 "" ++ ")") ∧
        dictGet q "time" = some ("(\"" ++ (pySplit ',' temporal).getD 0 ""
          ++ "\":\"" ++ (pySplit ',' temporal).getD 1 "" ++ "\")") ∧
        ∀ k, k ≠ "collection_id" → k ≠ "lat" → k ≠ "lon" → k ≠ "time" →
          dictGet q k = dictGet p k) := by
  constructor
  · intro p token k
    by_cases h : k = "token"
    · subst h
      simp [searchGranulesParams, dictGet_dictSet_self]
    · simp [searchGranulesParams, h, dictGet_dictSet_other p "token" token k h]
  · intro p q cid bb temporal hbb ht hq
    simp only [harmonyInject, hbb, ht] at hq
    by_cases hlen : 4 ≤ (pySplit ',' bb).length ∧ 2 ≤ (pySplit ',' temporal).length
    · rw [if_pos hlen] at hq
      obtain rfl : dictSet (dictSet (dictSet (dictSet p "collection_id" cid)
          "lat" ("(" ++ (pySplit ',' bb).getD 1 "" ++ ":" ++ (pySplit ',' bb).getD 3 "" ++ ")"))
          "lon" ("(" ++ (pySplit ',' bb).getD 0 "" ++ ":" ++ (pySplit ',' bb).getD 2 "" ++ ")"))
          "time" ("(\"" ++ (pySplit ',' temporal).getD 0 "" ++ "\":\""
            ++ (pySplit ',' temporal).getD 1 "" ++ "\")") = q := by
        exact Option.some.inj hq
      refine ⟨?_, ?_, ?_, ?_, ?_⟩
      · rw [dictGet_dictSet_other _ _ _ _ (by decide),
          dictGet_dictSet_other _ _ _ _ (by decide),
          dictGet_dictSet_other _ _ _ _ (by decide), dictGet_dictSet_self]
      · rw [dictGet_dictSet_other _ _ _ _ (by decide),
          dictGet_dictSet_other _ _ _ _ (by decide), dictGet_dictSet_self]
      · rw [dictGet_dictSet_other _ _ _ _ (by decide), dictGet_dictSet_self]
      · rw [dictGet_dictSet_self]
      · intro k h1 h2 h3 h4
        rw [dictGet_dictSet_other _ _ _ _ h4, dictGet_dictSet_other _ _ _ _ h3,
          dictGet_dictSet_other _ _ _ _ h2, dictGet_dictSet_other _ _ _ _ h1]
    · rw [if_neg hlen] at hq
      exact absurd hq (by simp)

/-- Witness for C9 at a concrete dictionary. -/
theorem claim_C9_param_mutation_witness :
    dictGet (searchGranulesParams [("short_name", "ATL10")] "tok-1") "token"
      = some "tok-1" ∧
    dictGet (searchGranulesParams [("short_name", "ATL10")] "tok-1") "short_name"
      = some "ATL10" ∧
    dictGet [("bounding_box", "0,1,2,3"), ("temporal", "t0,t1"),
      ("collection_id", "C1-PROV"), ("lat", "(1:3)"), ("lon", "(0:2)"),
      ("time", "(\"t0\":\"t1\")")] "lat" = some "(1:3)" := by
  refine ⟨?_, ?_, ?_⟩
  · have h := claim_C9_param_mutation.1 [("short_name", "ATL10")] "tok-1" "token"
    simpa using h
  · have h := claim_C9_param_mutation.1 [("short_name", "ATL10")] "tok-1" "short_name"
    simpa using h
  · have h := (claim_C9_param_mutation.2 [("bounding_box", "0,1,2,3"), ("temporal", "t0,t1")]
      [("bounding_box", "0,1,2,3"), ("temporal", "t0,t1"), ("collection_id", "C1-PROV"),
        ("lat", "(1:3)"), ("lon", "(0:2)"), ("time", "(\"t0\":\"t1\")")]
      "C1-PROV" "0,1,2,3" "t0,t1" rfl rfl rfl).2.1
    simpa using h

/-! ### Claim C10: behaviour on final statuses outside
`complete` / `complete_with_errors` -/

/-- C10 counterexample: the status `failed` is outside
`complete` / `complete_with_errors`, yet when it is reported by the very
first status check the function does not return normally — the message
block raises `NameError` on the unbound `loop_root` before the download
branch is reached. -/
theorem claim_C10_counterexample :
    nsidcRun "ORD2" (fun _ => "failed") (fun _ => [some "boom"]) 3
      = some (Except.error "NameError: name loop_root is not defined") ∧
    ¬ ("failed" = "complete" ∨ "failed" = "complete_with_errors") :=
  ⟨rfl, by decide⟩

/-- C10 amended: any polled status other than `pending` or `processing` ends
the polling loop at once (first conjunct); and any final status outside
`complete` / `complete_with_errors` causes no zip download — the function
prints `'Request failed.'`, performs the flattening walk and returns
normally — provided the status is not a `failed` (or `complete_with_errors`)
delivered by the very first check, in which case the message block raises
`NameError` instead (second conjunct; the `0 < polls` guard expresses the
proviso, and the printed diagnostics are exactly those of the `failed`
branch). -/
theorem claim_C10_amended :
    (∀ (oracle : Nat → String) (fuel polls slept : Nat) (s : String),
        nsidcLoopCont s = false →
        nsidcPollAux oracle fuel polls slept s = some (s, polls, slept)) ∧
    (∀ (orderID : String) (polls slept : Nat) (msgs : List (Option String)) (s : String),
        s ≠ "complete" → s ≠ "complete_with_errors" →
        (s = "failed" → 0 < polls) →
        nsidcTail orderID polls slept msgs s
          = Except.ok
              { finalStatus := s, loopPolls := polls, secondsSlept := slept
                printedMessages := if s = "failed" then some msgs else none
                downloadURL := none, printedRequestFailed := true
                flattenRan := true }) := by
  refine ⟨nsidcPollAux_exit, ?_⟩
  intro orderID polls slept msgs s h1 h2 h3
  by_cases hf : s = "failed"
  · subst hf
    have hp : polls ≠ 0 := Nat.pos_iff_ne_zero.mp (h3 rfl)
    simp [nsidcTail, hp]
  · simp [nsidcTail, beq_iff_eq, h1, h2, hf]

/-- Witness for the amended C10 at an unrecognized status and at a `failed`
status after one loop iteration. -/
theorem claim_C10_amended_witness :
    nsidcPollAux (fun _ => "pending") 4 0 0 "borked" = some ("borked", 0, 0) ∧
    nsidcTail "ORD1" 0 0 [] "borked"
      = Except.ok
          { finalStatus := "borked", loopPolls := 0, secondsSlept := 0
            printedMessages := none, downloadURL := none
            printedRequestFailed := true, flattenRan := true } ∧
    nsidcTail "ORD1" 1 10 [some "oops"] "failed"
      = Except.ok
          { finalStatus := "failed", loopPolls := 1, secondsSlept := 10
            printedMessages := some [some "oops"], downloadURL := none
            printedRequestFailed := true, flattenRan := true } := by
  refine ⟨claim_C10_amended.1 (fun _ => "pending") 4 0 0 "borked" (by decide), ?_, ?_⟩
  · have h := claim_C10_amended.2 "ORD1" 0 0 [] "borked" (by decide) (by decide)
      (fun h => absurd h (by decide))
    simpa using h
  · have h := claim_C10_amended.2 "ORD1" 1 10 [some "oops"] "failed" (by decide) (by decide)
      (fun _ => Nat.zero_lt_one)
    simpa using h

/-! ### Claim C5: the flattening walk -/

theorem runEvents_append (es1 es2 : List WalkEvent) : ∀ fs : FlattenState,
    runEvents fs (es1 ++ es2) = (runEvents fs es1).bind fun fs' => runEvents fs' es2 := by
  induction es1 with
  | nil => intro fs; rfl
  | cons e es ih =>
    intro fs
    cases e with
    | mv f => simpa [runEvents] using ih (moveStep fs f)
    | rd d =>
      cases h : rmdirStep fs d with
      | none => simp [runEvents, h]
      | some fs2 => simp [runEvents, h, ih fs2]

theorem contains_eq_false_of_not_mem {α : Type} [BEq α] [LawfulBEq α] {l : List α} {a : α}
    (h : a ∉ l) : l.contains a = false := by
  cases hb : l.contains a
  · rfl
  · exact absurd (List.elem_iff.mp hb) h

theorem top_mem_afterFilesP (files0 : List RelFile) (done : List (List String))
    (d : List String) (todo : List RelFile) (n : String) :
    (⟨[], n⟩ : RelFile) ∈ afterFilesP files0 done d todo
      ↔ ∃ g ∈ files0, g.name = n ∧
          (g.dir ∈ done ∨ (g.dir = d ∧ g ∉ todo) ∨ g.dir = []) := by
  simp only [afterFilesP, List.mem_map]
  constructor
  · rintro ⟨g, hg, heq⟩
    by_cases hc : g.dir ∈ done ∨ (g.dir = d ∧ g ∉ todo)
    · rw [if_pos hc] at heq
      have hn : g.name = n := congrArg RelFile.name heq
      exact ⟨g, hg, hn, hc.imp id Or.inl⟩
    · rw [if_neg hc] at heq
      have hn : g.name = n := congrArg RelFile.name heq
      have hd : g.dir = [] := congrArg RelFile.dir heq
      exact ⟨g, hg, hn, Or.inr (Or.inr hd)⟩
  · rintro ⟨g, hg, hn, hcond⟩
    refine ⟨g, hg, ?_⟩
    by_cases hc : g.dir ∈ done ∨ (g.dir = d ∧ g ∉ todo)
    · rw [if_pos hc, hn]
    · rw [if_neg hc]
      have hd : g.dir = [] := by
        rcases hcond with h | h | h
        · exact absurd (Or.inl h) hc
        · exact absurd (Or.inr h) hc
        · exact h
      cases g
      simp_all

theorem afterFilesP_full (files0 : List RelFile) (done : List (List String))
    (d : List String) :
    afterFilesP files0 done d (files0.filter (fun f => f.dir == d))
      = afterFiles files0 done := by
  apply List.map_congr_left
  intro f hf
  by_cases hd : f.dir = d
  · have hmem : f ∈ files0.filter (fun f => f.dir == d) := by
      simp [List.mem_filter, hf, hd]
    have hiff : (f.dir ∈ done ∨ (f.dir = d ∧ f ∉ files0.filter (fun f => f.dir == d)))
        ↔ f.dir ∈ done := by
      simp [hmem]
    simp only [hiff]
  · have hiff : (f.dir ∈ done ∨ (f.dir = d ∧ f ∉ files0.filter (fun f => f.dir == d)))
        ↔ f.dir ∈ done := by
      simp [hd]
    simp only [hiff]

theorem afterFilesP_nil (files0 : List RelFile) (done : List (List String))
    (d : List String) :
    afterFilesP files0 done d [] = afterFiles files0 (done ++ [d]) := by
  apply List.map_congr_left
  intro f hf
  have hiff : (f.dir ∈ done ∨ (f.dir = d ∧ f ∉ ([] : List RelFile)))
      ↔ f.dir ∈ done ++ [d] := by
    simp [List.mem_append]
  simp only [hiff]

theorem run_moves (files0 : List RelFile) (dirsCur : List (List String))
    (done : List (List String)) (d : List String)
    (Hinj : ∀ f ∈ files0, ∀ g ∈ files0, f.name = g.name → f = g)
    (Hnotop : ∀ f ∈ files0, ([f.name] : List String) ∉ dirsCur)
    (hdd : d ∉ done) :
    ∀ todo : List RelFile, todo.Nodup → (∀ f ∈ todo, f ∈ files0) →
      (∀ f ∈ todo, f.dir = d) →
      runEvents ⟨afterFilesP files0 done d todo, dirsCur⟩ (todo.map WalkEvent.mv)
        = some ⟨afterFilesP files0 done d [], dirsCur⟩ := by
  intro todo
  induction todo with
  | nil => intro _ _ _; rfl
  | cons f rest ih =>
    intro hnd hsub hdir
    have hf0 : f ∈ files0 := hsub f (by simp)
    have hfd : f.dir = d := hdir f (by simp)
    have hfrest : f ∉ rest := (List.nodup_cons.mp hnd).1
    show runEvents (moveStep ⟨afterFilesP files0 done d (f :: rest), dirsCur⟩ f)
        (rest.map WalkEvent.mv) = _
    by_cases hdnil : d = []
    · -- the file is already at the top: its move collides with itself and is
      -- swallowed, so the state does not change
      have hcontains : (afterFilesP files0 done d (f :: rest)).contains
          (⟨[], f.name⟩ : RelFile) = true := by
        rw [List.elem_iff, top_mem_afterFilesP]
        exact ⟨f, hf0, rfl, Or.inr (Or.inr (hfd.trans hdnil))⟩
      have hcond : ((afterFilesP files0 done d (f :: rest)).contains
          (⟨[], f.name⟩ : RelFile) || dirsCur.contains [f.name]) = true := by
        rw [hcontains, Bool.true_or]
      have hms : moveStep ⟨afterFilesP files0 done d (f :: rest), dirsCur⟩ f
          = ⟨afterFilesP files0 done d (f :: rest), dirsCur⟩ := if_pos hcond
      rw [hms]
      have heq : afterFilesP files0 done d (f :: rest)
          = afterFilesP files0 done d rest := by
        apply List.map_congr_left
        intro g hg
        by_cases hgd : g.dir = d
        · have hgtop : g = (⟨[], g.name⟩ : RelFile) := by
            cases g
            simp_all
          rw [← hgtop, ite_self, ite_self]
        · have h1 : (g.dir ∈ done ∨ (g.dir = d ∧ g ∉ f :: rest)) ↔ g.dir ∈ done := by
            simp [hgd]
          have h2 : (g.dir ∈ done ∨ (g.dir = d ∧ g ∉ rest)) ↔ g.dir ∈ done := by
            simp [hgd]
          simp only [h1, h2]
      rw [heq]
      exact ih (List.nodup_cons.mp hnd).2 (fun g hg => hsub g (List.mem_cons_of_mem f hg))
        (fun g hg => hdir g (List.mem_cons_of_mem f hg))
    · -- a genuine move: the destination does not exist, so the file lands at
      -- the top
      have hnotmem : (⟨[], f.name⟩ : RelFile) ∉ afterFilesP files0 done d (f :: rest) := by
        rw [top_mem_afterFilesP]
        rintro ⟨g, hg0, hname, hcond⟩
        have hgf : g = f := Hinj g hg0 f hf0 hname
        subst hgf
        rcases hcond with h | ⟨h1, h2⟩ | h
        · exact hdd (hfd ▸ h)
        · exact h2 (by simp)
        · exact hdnil (hfd ▸ h)
      have hc1 : (afterFilesP files0 done d (f :: rest)).contains
          (⟨[], f.name⟩ : RelFile) = false := contains_eq_false_of_not_mem hnotmem
      have hc2 : dirsCur.contains [f.name] = false :=
        contains_eq_false_of_not_mem (Hnotop f hf0)
      have hcond : ¬ (((afterFilesP files0 done d (f :: rest)).contains
          (⟨[], f.name⟩ : RelFile) || dirsCur.contains [f.name]) = true) := by
        rw [hc1, hc2]
        simp
      have hms : moveStep ⟨afterFilesP files0 done d (f :: rest), dirsCur⟩ f
          = ⟨(afterFilesP files0 done d (f :: rest)).map
              (fun g => if g = f then ⟨[], f.name⟩ else g), dirsCur⟩ := if_neg hcond
      rw [hms]
      have hstep : (afterFilesP files0 done d (f :: rest)).map
            (fun g => if g = f then (⟨[], f.name⟩ : RelFile) else g)
          = afterFilesP files0 done d rest := by
        rw [afterFilesP, afterFilesP, List.map_map]
        apply List.map_congr_left
        intro g hg
        simp only [Function.comp_apply]
        by_cases hgf : g = f
        · have hcl : ¬ (g.dir ∈ done ∨ (g.dir = d ∧ g ∉ f :: rest)) := by
            rintro (h | ⟨h1, h2⟩)
            · rw [hgf, hfd] at h
              exact hdd h
            · rw [hgf] at h2
              exact h2 (List.mem_cons_self f rest)
          have hcr : g.dir ∈ done ∨ (g.dir = d ∧ g ∉ rest) := by
            refine Or.inr ⟨?_, ?_⟩
            · rw [hgf]; exact hfd
            · rw [hgf]; exact hfrest
          rw [if_neg hcl, if_pos hgf, if_pos hcr, hgf]
        · have hmemiff : g ∉ (f :: rest) ↔ g ∉ rest := by
            simp [List.mem_cons, hgf]
          by_cases hc : g.dir ∈ done ∨ (g.dir = d ∧ g ∉ rest)
          · have hcl : g.dir ∈ done ∨ (g.dir = d ∧ g ∉ f :: rest) := by
              rcases hc with h | ⟨h1, h2⟩
              · exact Or.inl h
              · exact Or.inr ⟨h1, hmemiff.mpr h2⟩
            have htne : (⟨[], g.name⟩ : RelFile) ≠ f := by
              intro h
              exact hdnil (hfd ▸ (congrArg RelFile.dir h).symm)
            rw [if_pos hcl, if_neg htne, if_pos hc]
          · have hcl : ¬ (g.dir ∈ done ∨ (g.dir = d ∧ g ∉ f :: rest)) := by
              rintro (h | ⟨h1, h2⟩)
              · exact hc (Or.inl h)
              · exact hc (Or.inr ⟨h1, hmemiff.mp h2⟩)
            rw [if_neg hcl, if_neg hgf, if_neg hc]
      rw [hstep]
      exact ih (List.nodup_cons.mp hnd).2 (fun g hg => hsub g (List.mem_cons_of_mem f hg))
        (fun g hg => hdir g (List.mem_cons_of_mem f hg))

theorem run_rmdirs (F : List RelFile) :
    ∀ (todoC : List (List String)) (dirsCur : List (List String)),
      dirsCur.Nodup → todoC.Nodup →
      (∀ c ∈ todoC, c ∈ dirsCur) →
      (∀ c ∈ todoC, ∀ f ∈ F, ¬ c <+: f.dir) →
      (∀ c ∈ todoC, ∀ d2 ∈ dirsCur, c <+: d2 → d2 = c) →
      runEvents ⟨F, dirsCur⟩ (todoC.map WalkEvent.rd)
        = some ⟨F, List.foldl List.erase dirsCur todoC⟩ := by
  intro todoC
  induction todoC with
  | nil => intro dirsCur _ _ _ _ _; rfl
  | cons c restC ih =>
    intro dirsCur hnd hndC hmem hfile hsup
    have hempty : dirNonEmpty ⟨F, dirsCur⟩ c = false := by
      rw [dirNonEmpty, Bool.or_eq_false_iff]
      constructor
      · rw [List.any_eq_false]
        intro f hf
        intro h
        rw [List.isPrefixOf_iff_prefix] at h
        exact hfile c (List.mem_cons_self c restC) f hf h
      · rw [List.any_eq_false]
        intro d2 hd2
        intro h
        rw [Bool.and_eq_true, List.isPrefixOf_iff_prefix] at h
        obtain ⟨h1, h2⟩ := h
        have hd2c := hsup c (List.mem_cons_self c restC) d2 hd2 h1
        simp [hd2c] at h2
    have hrm : rmdirStep ⟨F, dirsCur⟩ c = some ⟨F, dirsCur.erase c⟩ := by
      rw [rmdirStep, if_neg]
      rw [hempty]
      exact Bool.false_ne_true
    show runEvents ⟨F, dirsCur⟩ (WalkEvent.rd c :: restC.map WalkEvent.rd) = _
    rw [runEvents, hrm, List.foldl_cons]
    apply ih (dirsCur.erase c) (hnd.erase c) (List.nodup_cons.mp hndC).2
    · intro c' hc'
      have hne : c' ≠ c := by
        rintro rfl
        exact (List.nodup_cons.mp hndC).1 hc'
      exact (hnd.mem_erase_iff).mpr ⟨hne, hmem c' (List.mem_cons_of_mem c hc')⟩
    · intro c' hc' f hf
      exact hfile c' (List.mem_cons_of_mem c hc') f hf
    · intro c' hc' d2 hd2 hpre
      exact hsup c' (List.mem_cons_of_mem c hc') d2 (List.mem_of_mem_erase hd2) hpre

theorem foldl_erase_filter :
    ∀ (C L : List (List String)), L.Nodup →
      List.foldl List.erase L C = L.filter (fun x => !(C.contains x)) := by
  intro C
  induction C with
  | nil =>
    intro L _
    simp
  | cons c C ih =>
    intro L hL
    rw [List.foldl_cons, ih (L.erase c) (hL.erase c), hL.erase_eq_filter c,
      List.filter_filter]
    apply List.filter_congr
    intro x hx
    show (!(C.contains x) && (x != c)) = !((c :: C).contains x)
    by_cases hxc : x = c
    · subst hxc
      simp [List.contains_cons]
    · by_cases hxC : x ∈ C
      · simp [List.contains_cons, List.elem_iff, hxC]
      · simp [List.contains_cons, List.elem_iff, hxC, hxc, bne,
          contains_eq_false_of_not_mem hxC]

theorem prefix_dropLast_of_strict {c d2 : List String} (h : c <+: d2) (hne : d2 ≠ c) :
    c <+: d2.dropLast := by
  obtain ⟨t, ht⟩ := h
  rcases List.eq_nil_or_concat t with rfl | ⟨t', x, rfl⟩
  · rw [List.append_nil] at ht
    exact absurd ht.symm hne
  · rw [← ht]
    have : c ++ t'.concat x = (c ++ t') ++ [x] := by
      simp [List.concat_eq_append, List.append_assoc]
    rw [this, List.dropLast_concat]
    exact List.prefix_append c t'

theorem afterDirs_step (dirs0 done : List (List String)) (d : List String)
    (hdnd : dirs0.Nodup) (hne : ∀ c ∈ dirs0, c ≠ []) :
    List.foldl List.erase (afterDirs dirs0 done) (childrenIn dirs0 d)
      = afterDirs dirs0 (done ++ [d]) := by
  rw [afterDirs, foldl_erase_filter _ _ (hdnd.filter _), List.filter_filter, afterDirs]
  apply List.filter_congr
  intro x hx
  have hmemC : x ∈ childrenIn dirs0 d ↔ x.dropLast = d := by
    simp [childrenIn, List.mem_filter, hx, hne x hx]
  by_cases h2 : x.dropLast = d
  · have hc : (childrenIn dirs0 d).contains x = true := by
      rw [List.elem_iff]
      exact hmemC.mpr h2
    simp only [hc, h2, List.mem_append]
    simp
  · have hc : (childrenIn dirs0 d).contains x = false :=
      contains_eq_false_of_not_mem (fun hm => h2 (hmemC.mp hm))
    simp only [hc, List.mem_append]
    simp [h2]

/-- Invariant of the flattening walk: processing the yields of the remaining
directories `order` from the state reached after processing `done` succeeds
and reaches the state where every directory of `done ++ order` has been
processed, provided base names are unique, no base name names a top-level
directory, `dirs0` is the (duplicate-free) set of non-empty prefixes of the
files' directories, every directory occurs in `done ++ order`, and no
directory is listed before a descendant of it. -/
theorem walk_invariant (files0 : List RelFile) (dirs0 : List (List String))
    (Hinj : ∀ f ∈ files0, ∀ g ∈ files0, f.name = g.name → f = g)
    (Hnotop : ∀ f ∈ files0, ([f.name] : List String) ∉ dirs0)
    (Hfnd : files0.Nodup)
    (Hdnd : dirs0.Nodup)
    (Hd1 : ∀ e ∈ dirs0, e ≠ [] ∧ ∃ f ∈ files0, e <+: f.dir)
    (Hd2 : ∀ f ∈ files0, ∀ e, e <+: f.dir → e ≠ [] → e ∈ dirs0) :
    ∀ (order done : List (List String)),
      (∀ e ∈ dirs0, e ∈ done ++ order) →
      (done ++ order).Pairwise (fun a b => ¬ a <+: b) →
      runEvents ⟨afterFiles files0 done, afterDirs dirs0 done⟩
          (walkEvents files0 dirs0 order)
        = some ⟨afterFiles files0 (done ++ order), afterDirs dirs0 (done ++ order)⟩ := by
  intro order
  induction order with
  | nil =>
    intro done hcomp hpair
    simp [walkEvents, runEvents]
  | cons d order' ih =>
    intro done hcomp hpair
    have hsplit := List.pairwise_append.mp hpair
    have hpair_mid : (d :: order').Pairwise (fun a b => ¬ a <+: b) := hsplit.2.1
    have hdd : d ∉ done := by
      intro hmem
      exact hsplit.2.2 d hmem d (List.mem_cons_self d order') (List.prefix_refl d)
    have hdesc : ∀ e ∈ dirs0, d <+: e → e ≠ d → e ∈ done := by
      intro e he hpre hne
      rcases List.mem_append.mp (hcomp e he) with h | h
      · exact h
      · rcases List.mem_cons.mp h with h' | h'
        · exact absurd h' hne
        · exact absurd hpre ((List.pairwise_cons.mp hpair_mid).1 e h')
    have hchild_facts : ∀ c ∈ childrenIn dirs0 d,
        c ∈ dirs0 ∧ c ≠ [] ∧ c.dropLast = d ∧ d <+: c ∧ d.length < c.length := by
      intro c hc
      obtain ⟨hc0, hcp⟩ := List.mem_filter.mp hc
      have hcne : c ≠ [] := (Hd1 c hc0).1
      have hcd : c.dropLast = d := by
        have h := hcp
        rw [Bool.and_eq_true] at h
        simpa using h.2
      have hdc : d <+: c := by
        rw [← hcd]
        exact List.dropLast_prefix c
      have hlen : d.length < c.length := by
        have h0 : c.length ≠ 0 := by simpa using hcne
        have : c.dropLast.length = c.length - 1 := List.length_dropLast c
        rw [hcd] at this
        omega
      exact ⟨hc0, hcne, hcd, hdc, hlen⟩
    have E1 : runEvents ⟨afterFiles files0 done, afterDirs dirs0 done⟩
        (eventsFor files0 dirs0 d)
        = some ⟨afterFiles files0 (done ++ [d]), afterDirs dirs0 (done ++ [d])⟩ := by
      rw [eventsFor, runEvents_append]
      have M := run_moves files0 (afterDirs dirs0 done) done d Hinj
        (fun f hf hmem => Hnotop f hf (List.mem_of_mem_filter hmem)) hdd
        (files0.filter (fun f => f.dir == d))
        (Hfnd.filter _)
        (fun f hf => List.mem_of_mem_filter hf)
        (fun f hf => by simpa using (List.mem_filter.mp hf).2)
      rw [afterFilesP_full, afterFilesP_nil] at M
      rw [M]
      show runEvents ⟨afterFiles files0 (done ++ [d]), afterDirs dirs0 done⟩
          ((childrenIn dirs0 d).map WalkEvent.rd) = _
      have R := run_rmdirs (afterFiles files0 (done ++ [d])) (childrenIn dirs0 d)
        (afterDirs dirs0 done) (Hdnd.filter _) (Hdnd.filter _)
        (by
          intro c hc
          obtain ⟨hc0, hcne, hcd, hdc, hlen⟩ := hchild_facts c hc
          rw [afterDirs, List.mem_filter]
          refine ⟨hc0, ?_⟩
          rw [hcd]
          simpa using hdd)
        (by
          intro c hc f hf hpre
          obtain ⟨hc0, hcne, hcd, hdc, hlen⟩ := hchild_facts c hc
          obtain ⟨g, hg, rfl⟩ := List.mem_map.mp hf
          by_cases hgd : g.dir ∈ done ++ [d]
          · rw [if_pos hgd] at hpre
            exact hcne (List.prefix_nil.mp hpre)
          · rw [if_neg hgd] at hpre
            have hgne : g.dir ≠ [] := by
              intro h
              rw [h] at hpre
              exact hcne (List.prefix_nil.mp hpre)
            have hgdir : g.dir ∈ dirs0 := Hd2 g hg g.dir (List.prefix_refl _) hgne
            have hgdone : g.dir ∈ done := by
              apply hdesc g.dir hgdir (hdc.trans hpre)
              intro h
              rw [h] at hpre
              have := hpre.length_le
              omega
            exact hgd (List.mem_append.mpr (Or.inl hgdone)))
        (by
          intro c hc d2 hd2 hpre
          by_contra hne
          obtain ⟨hc0, hcne, hcd, hdc, hlen⟩ := hchild_facts c hc
          obtain ⟨hd20, hd2p⟩ := List.mem_filter.mp hd2
          have hd2nd : d2.dropLast ∉ done := by simpa using hd2p
          have hstrict : c <+: d2.dropLast := prefix_dropLast_of_strict hpre hne
          obtain ⟨-, f0, hf0, hd2f⟩ := Hd1 d2 hd20
          have hdl_ne : d2.dropLast ≠ [] := by
            intro h
            rw [h] at hstrict
            exact hcne (List.prefix_nil.mp hstrict)
          have hdl_mem : d2.dropLast ∈ dirs0 :=
            Hd2 f0 hf0 d2.dropLast ((List.dropLast_prefix d2).trans hd2f) hdl_ne
          apply hd2nd
          apply hdesc d2.dropLast hdl_mem (hdc.trans hstrict)
          intro h
          have := hstrict.length_le
          rw [h] at this
          omega)
      rw [R, afterDirs_step dirs0 done d Hdnd (fun c hc => (Hd1 c hc).1)]
    show runEvents ⟨afterFiles files0 done, afterDirs dirs0 done⟩
        (eventsFor files0 dirs0 d ++ walkEvents files0 dirs0 order') = _
    rw [runEvents_append, E1]
    show runEvents ⟨afterFiles files0 (done ++ [d]), afterDirs dirs0 (done ++ [d])⟩
        (walkEvents files0 dirs0 order') = _
    have hassoc : (done ++ [d]) ++ order' = done ++ d :: order' := by
      rw [List.append_assoc]
      rfl
    have := ih (done ++ [d]) (by rw [hassoc]; exact hcomp) (by rw [hassoc]; exact hpair)
    rw [hassoc] at this
    exact this

/-- C5 counterexample: two archive files `a/f` and `b/f` share a base name.
The second move collides with the already-moved `f` and is swallowed, but
the walk then raises an uncaught `OSError` when `os.rmdir` meets the still
non-empty directory (the `none`), leaving a subdirectory with a nested file
behind — so it is not the case that for any N files the flattening leaves
exactly N flat files, no subdirectory and no exception. -/
theorem claim_C5_counterexample :
    flattenRun [⟨["a"], "f"⟩, ⟨["b"], "f"⟩] [["a"], ["b"]] [["a"], ["b"], []] = none ∧
    ([⟨["a"], "f"⟩, ⟨["b"], "f"⟩] : List RelFile).length = 2 :=
  ⟨by decide, rfl⟩

/-- C5 amended: when the N extracted files have pairwise-distinct base names
and no base name coincides with a top-level directory name, the flattening
walk completes without raising, every file ends up directly under the output
directory (exactly N of them, in the model exactly the original files
relocated to the top) and zero subdirectories remain.  The last conjunct
records that a move whose destination already exists leaves the tree
unchanged — the failure is swallowed, never raised.  `order` is any
bottom-up (`topdown=False`) enumeration of the directories: it lists every
directory and the top `[]`, and never lists a directory before one of its
descendants. -/
theorem claim_C5_amended (files0 : List RelFile) (dirs0 order : List (List String))
    (Hnames : (files0.map RelFile.name).Nodup)
    (Hnotop : ∀ f ∈ files0, ([f.name] : List String) ∉ dirs0)
    (Hdnd : dirs0.Nodup)
    (Hd1 : ∀ e ∈ dirs0, e ≠ [] ∧ ∃ f ∈ files0, e <+: f.dir)
    (Hd2 : ∀ f ∈ files0, ∀ n, n < f.dir.length + 1 → n ≠ 0 → f.dir.take n ∈ dirs0)
    (Hcomp : ∀ e ∈ dirs0, e ∈ order)
    (Htop : ([] : List String) ∈ order)
    (Hpost : order.Pairwise (fun a b => ¬ a <+: b)) :
    flattenRun files0 dirs0 order
      = some ⟨files0.map (fun f => ⟨[], f.name⟩), []⟩ ∧
    (files0.map (fun f => (⟨[], f.name⟩ : RelFile))).length = files0.length ∧
    (∀ (fs : FlattenState) (f : RelFile),
        (fs.files.contains ⟨[], f.name⟩ || fs.dirs.contains [f.name]) = true →
        moveStep fs f = fs) := by
  have Hinj : ∀ f ∈ files0, ∀ g ∈ files0, f.name = g.name → f = g := by
    intro f hf g hg h
    exact List.inj_on_of_nodup_map Hnames hf hg h
  have Hfnd : files0.Nodup := Hnames.of_map
  have Hd2' : ∀ f ∈ files0, ∀ e, e <+: f.dir → e ≠ [] → e ∈ dirs0 := by
    intro f hf e hpre hne
    have htake : e = f.dir.take e.length := List.prefix_iff_eq_take.mp hpre
    rw [htake]
    apply Hd2 f hf e.length
    · have := hpre.length_le
      omega
    · intro h
      exact hne (List.length_eq_zero.mp h)
  have W := walk_invariant files0 dirs0 Hinj Hnotop Hfnd Hdnd Hd1 Hd2' order []
    (by simpa using Hcomp) (by simpa using Hpost)
  have hinitF : afterFiles files0 [] = files0 := by
    simp [afterFiles]
  have hinitD : afterDirs dirs0 [] = dirs0 := by
    simp [afterDirs]
  have hfinF : afterFiles files0 ([] ++ order) = files0.map (fun f => ⟨[], f.name⟩) := by
    rw [List.nil_append, afterFiles]
    apply List.map_congr_left
    intro f hf
    by_cases hin : f.dir ∈ order
    · rw [if_pos hin]
    · rw [if_neg hin]
      have hnil : f.dir = [] := by
        by_contra hne
        exact hin (Hcomp f.dir (Hd2' f hf f.dir (List.prefix_refl _) hne))
      cases f
      simp_all
  have hfinD : afterDirs dirs0 ([] ++ order) = [] := by
    rw [List.nil_append, afterDirs]
    apply List.filter_eq_nil_iff.mpr
    intro c hc
    have hmem : c.dropLast ∈ order := by
      by_cases hnil : c.dropLast = []
      · rw [hnil]
        exact Htop
      · obtain ⟨hcne, f0, hf0, hcf⟩ := Hd1 c hc
        exact Hcomp c.dropLast
          (Hd2' f0 hf0 c.dropLast ((List.dropLast_prefix c).trans hcf) hnil)
    simp [hmem]
  rw [hinitF, hinitD, hfinF, hfinD] at W
  refine ⟨W, List.length_map files0 _, ?_⟩
  intro fs f h
  exact if_pos h

/-- Witness for the amended C5 on a concrete three-file tree of depth two. -/
theorem claim_C5_amended_witness :
    flattenRun [⟨["a", "x"], "f"⟩, ⟨["a"], "g"⟩, ⟨[], "h"⟩]
        [["a"], ["a", "x"]] [["a", "x"], ["a"], []]
      = some ⟨[⟨[], "f"⟩, ⟨[], "g"⟩, ⟨[], "h"⟩], []⟩ :=
  (claim_C5_amended [⟨["a", "x"], "f"⟩, ⟨["a"], "g"⟩, ⟨[], "h"⟩]
    [["a"], ["a", "x"]] [["a", "x"], ["a"], []]
    (by decide) (by decide) (by decide) (by decide) (by decide) (by decide)
    (by decide) (by decide)).1
